import Mathlib

/-!
Verification of the content-addressed inference result cache and
classification pipeline of the scalable image classifier service.

The embedding covers:
* `app/middleware/cache.py` — the fingerprint function `image_cache_key`
  (SHA-256 over raw bytes concatenated with the decimal rendering of
  `top_k`), and the wrappers `get_cached_result` / `set_cached_result` /
  `clear_cache` / `get_cache_stats` over a cachetools `TTLCache`.
* The semantics of `cachetools.TTLCache(maxsize, ttl)` itself, which the
  repository instantiates as its cache store: a bounded mapping whose
  entries expire `ttl` after insertion and whose capacity eviction removes
  the least-recently-used non-expired entry (lookups promote recency).
* `app/api/endpoints.py` — the `classify_image` and `classify_batch`
  handlers, with PIL decode / thumbnail and the torch classifier treated
  as opaque collaborators.

Bytes are modelled as `List Nat`, machine time as a `Nat` clock passed
explicitly (cachetools takes an injectable `timer`), and the wall-clock
processing time measured on the miss path as an explicit `elapsed`
parameter (the measurement itself is outside the program's control).
-/

set_option maxRecDepth 20000

namespace ImgClassifier

/-! ### Decimal rendering of an integer, as CPython's `str` produces it

`image_cache_key` appends `str(top_k).encode()` to the image bytes.
`decDigitsF` is a fuel-indexed structural recursion (so that concrete
values reduce inside the kernel); `decDigits n` uses fuel `n + 1`, which
is always sufficient since the argument strictly decreases. -/

def decDigitsF : Nat → Nat → List Nat
  | 0, _ => []
  | fuel + 1, n => if n < 10 then [n] else decDigitsF fuel (n / 10) ++ [n % 10]

/-- Big-endian base-10 digits of `n`, with `decDigits 0 = [0]` (as `str(0) = "0"`). -/
def decDigits (n : Nat) : List Nat :=
  decDigitsF (n + 1) n

/-- ASCII bytes of `str(n)` for a natural number `n` (digit `d` is byte `48 + d`). -/
def natStrBytes (n : Nat) : List Nat :=
  (decDigits n).map (fun d => d + 48)

/-- ASCII bytes of `str(k)` for a Python `int` `k`; a negative value is
rendered with a leading minus sign (byte 45). -/
def intStrBytes (k : Int) : List Nat :=
  if k < 0 then 45 :: natStrBytes k.natAbs else natStrBytes k.natAbs

theorem decDigitsF_irrel : ∀ (f g n : Nat), n < f → n < g →
    decDigitsF f n = decDigitsF g n := by
  intro f
  induction f with
  | zero => intro g n h; omega
  | succ f ih =>
    intro g n hf hg
    match g, hg with
    | g + 1, _ =>
      show decDigitsF (f + 1) n = decDigitsF (g + 1) n
      by_cases h10 : n < 10
      · simp [decDigitsF, h10]
      · have hd : n / 10 < n := Nat.div_lt_self (by omega) (by omega)
        simp only [decDigitsF, h10, if_false]
        rw [ih g (n / 10) (by omega) (by omega)]

theorem decDigits_unfold (n : Nat) :
    decDigits n = if n < 10 then [n] else decDigits (n / 10) ++ [n % 10] := by
  have h1 : decDigits n = if n < 10 then [n] else decDigitsF n (n / 10) ++ [n % 10] := rfl
  rw [h1]
  by_cases h10 : n < 10
  · simp [h10]
  · have hd : n / 10 < n := Nat.div_lt_self (by omega) (by omega)
    simp only [h10, if_false]
    rw [decDigitsF_irrel n (n / 10 + 1) (n / 10) (by omega) (by omega)]
    rfl

theorem decDigits_ne_nil (n : Nat) : decDigits n ≠ [] := by
  rw [decDigits_unfold]
  by_cases h10 : n < 10 <;> simp [h10]

theorem decDigits_inj : ∀ m n : Nat, decDigits m = decDigits n → m = n := by
  intro m
  induction m using Nat.strong_induction_on with
  | _ m ih =>
    intro n h
    rw [decDigits_unfold m, decDigits_unfold n] at h
    by_cases hm : m < 10 <;> by_cases hn : n < 10
    · simpa [hm, hn] using h
    · exfalso
      simp only [hm, hn, if_true, if_false] at h
      have hlen := congrArg List.length h
      simp only [List.length_append, List.length_cons, List.length_nil] at hlen
      have h0 : (decDigits (n / 10)).length = 0 := by omega
      exact decDigits_ne_nil (n / 10) (List.length_eq_zero.mp h0)
    · exfalso
      simp only [hm, hn, if_true, if_false] at h
      have hlen := congrArg List.length h
      simp only [List.length_append, List.length_cons, List.length_nil] at hlen
      have h0 : (decDigits (m / 10)).length = 0 := by omega
      exact decDigits_ne_nil (m / 10) (List.length_eq_zero.mp h0)
    · simp only [hm, hn, if_false] at h
      have h2 := List.append_inj_right h (by
        have := congrArg List.length h
        simp [List.length_append] at this
        omega)
      have h1 : decDigits (m / 10) = decDigits (n / 10) :=
        List.append_inj_left h (by
          have := congrArg List.length h
          simp [List.length_append] at this
          omega)
      have hdiv : m / 10 = n / 10 :=
        ih (m / 10) (Nat.div_lt_self (by omega) (by omega)) (n / 10) h1
      have hmod : m % 10 = n % 10 := by simpa using h2
      omega

theorem natStrBytes_inj : ∀ m n : Nat, natStrBytes m = natStrBytes n → m = n := by
  intro m n h
  refine decDigits_inj m n ?_
  have : Function.Injective (fun d : Nat => d + 48) := fun a b hab => by simpa using hab
  exact List.map_injective_iff.mpr this h

theorem natStrBytes_head_ge (n : Nat) (a : Nat) (t : List Nat)
    (h : natStrBytes n = a :: t) : 48 ≤ a := by
  unfold natStrBytes at h
  cases hd : decDigits n with
  | nil => exact absurd hd (decDigits_ne_nil n)
  | cons d ds =>
    rw [hd] at h
    simp at h
    omega

theorem natStrBytes_ne_nil (n : Nat) : natStrBytes n ≠ [] := by
  unfold natStrBytes
  cases hd : decDigits n with
  | nil => exact absurd hd (decDigits_ne_nil n)
  | cons d ds => simp

theorem intStrBytes_inj : ∀ j k : Int, intStrBytes j = intStrBytes k → j = k := by
  intro j k h
  unfold intStrBytes at h
  by_cases hj : j < 0 <;> by_cases hk : k < 0
  · simp only [hj, hk, if_true] at h
    have := natStrBytes_inj j.natAbs k.natAbs (by simpa using h)
    omega
  · exfalso
    simp only [hj, hk, if_true, if_false] at h
    cases hn : natStrBytes k.natAbs with
    | nil => exact natStrBytes_ne_nil k.natAbs hn
    | cons a t =>
      rw [hn] at h
      have ha := natStrBytes_head_ge k.natAbs a t hn
      simp at h
      omega
  · exfalso
    simp only [hj, hk, if_true, if_false] at h
    cases hn : natStrBytes j.natAbs with
    | nil => exact natStrBytes_ne_nil j.natAbs hn
    | cons a t =>
      rw [hn] at h
      have ha := natStrBytes_head_ge j.natAbs a t hn
      simp at h
      omega
  · simp only [hj, hk, if_false] at h
    have := natStrBytes_inj j.natAbs k.natAbs h
    omega

/-! ### SHA-256 (`hashlib.sha256(...).hexdigest()`)

A direct functional rendering of FIPS 180-4 over byte lists, with 32-bit
words as `Nat` reduced mod `2 ^ 32`.  All recursions are structural so
concrete digests evaluate inside the kernel. -/

def w32 (x : Nat) : Nat := x % 4294967296

def rotr (x n : Nat) : Nat := w32 (Nat.lor (x >>> n) (x <<< (32 - n)))

def bigSigma0 (x : Nat) : Nat := Nat.xor (Nat.xor (rotr x 2) (rotr x 13)) (rotr x 22)

def bigSigma1 (x : Nat) : Nat := Nat.xor (Nat.xor (rotr x 6) (rotr x 11)) (rotr x 25)

def smallSigma0 (x : Nat) : Nat := Nat.xor (Nat.xor (rotr x 7) (rotr x 18)) (x >>> 3)

def smallSigma1 (x : Nat) : Nat := Nat.xor (Nat.xor (rotr x 17) (rotr x 19)) (x >>> 10)

def chFn (x y z : Nat) : Nat :=
  Nat.xor (Nat.land x y) (Nat.land (Nat.xor x 4294967295) z)

def majFn (x y z : Nat) : Nat :=
  Nat.xor (Nat.xor (Nat.land x y) (Nat.land x z)) (Nat.land y z)

def K64 : List Nat :=
  [1116352408, 1899447441, 3049323471, 3921009573, 961987163,
   1508970993, 2453635748, 2870763221, 3624381080, 310598401,
   607225278, 1426881987, 1925078388, 2162078206, 2614888103,
   3248222580, 3835390401, 4022224774, 264347078, 604807628,
   770255983, 1249150122, 1555081692, 1996064986, 2554220882,
   2821834349, 2952996808, 3210313671, 3336571891, 3584528711,
   113926993, 338241895, 666307205, 773529912, 1294757372,
   1396182291, 1695183700, 1986661051, 2177026350, 2456956037,
   2730485921, 2820302411, 3259730800, 3345764771, 3516065817,
   3600352804, 4094571909, 275423344, 430227734, 506948616,
   659060556, 883997877, 958139571, 1322822218, 1537002063,
   1747873779, 1955562222, 2024104815, 2227730452, 2361852424,
   2428436474, 2756734187, 3204031479, 3329325298]

/-- Merkle–Damgård padding: a 0x80 byte, zeros to 56 mod 64, then the
64-bit big-endian bit length of the message. -/
def padMsg (msg : List Nat) : List Nat :=
  let lenBits := msg.length * 8
  let padLen := (119 - msg.length % 64) % 64
  msg ++ 128 :: (List.replicate padLen 0 ++
    (List.range 8).map (fun i => (lenBits >>> (56 - 8 * i)) % 256))

/-- Group bytes into 32-bit big-endian words. -/
def bytesToWords : List Nat → List Nat
  | b0 :: b1 :: b2 :: b3 :: rest =>
      (((b0 * 256 + b1) * 256 + b2) * 256 + b3) :: bytesToWords rest
  | _ => []

/-- Split a word list (whose length is a multiple of 16 after padding)
into 16-word blocks. -/
def blocks16 : List Nat → List (List Nat)
  | w0 :: w1 :: w2 :: w3 :: w4 :: w5 :: w6 :: w7 ::
    w8 :: w9 :: w10 :: w11 :: w12 :: w13 :: w14 :: w15 :: rest =>
      [w0, w1, w2, w3, w4, w5, w6, w7, w8, w9, w10, w11, w12, w13, w14, w15]
        :: blocks16 rest
  | _ => []

structure Hash8 where
  a : Nat
  b : Nat
  c : Nat
  d : Nat
  e : Nat
  f : Nat
  g : Nat
  h : Nat
deriving DecidableEq

def initH : Hash8 :=
  ⟨1779033703, 3144134277, 1013904242, 2773480762,
   1359893119, 2600822924, 528734635, 1541459225⟩

/-- Extend a 16-word block to the 64-word message schedule. -/
def schedule (ws : List Nat) : List Nat :=
  (List.range 48).foldl
    (fun w _ =>
      let n := w.length
      w ++ [w32 (smallSigma1 (w.getD (n - 2) 0) + w.getD (n - 7) 0 +
        smallSigma0 (w.getD (n - 15) 0) + w.getD (n - 16) 0)])
    ws

def compressBlock (H : Hash8) (ws : List Nat) : Hash8 :=
  let final := ((K64.zip (schedule ws)).foldl
    (fun s kw =>
      let t1 := w32 (s.h + bigSigma1 s.e + chFn s.e s.f s.g + kw.1 + kw.2)
      let t2 := w32 (bigSigma0 s.a + majFn s.a s.b s.c)
      ⟨w32 (t1 + t2), s.a, s.b, s.c, w32 (s.d + t1), s.e, s.f, s.g⟩)
    H)
  ⟨w32 (H.a + final.a), w32 (H.b + final.b), w32 (H.c + final.c),
   w32 (H.d + final.d), w32 (H.e + final.e), w32 (H.f + final.f),
   w32 (H.g + final.g), w32 (H.h + final.h)⟩

def sha256digest (msg : List Nat) : Hash8 :=
  (blocks16 (bytesToWords (padMsg msg))).foldl compressBlock initH

def hexChar (d : Nat) : Char :=
  Char.ofNat (if d < 10 then 48 + d else 87 + d)

def wordHex (x : Nat) : List Char :=
  [hexChar (x / 268435456 % 16), hexChar (x / 16777216 % 16),
   hexChar (x / 1048576 % 16), hexChar (x / 65536 % 16),
   hexChar (x / 4096 % 16), hexChar (x / 256 % 16),
   hexChar (x / 16 % 16), hexChar (x % 16)]

/-- `hashlib.sha256(msg).hexdigest()`: the 64-character lowercase
hexadecimal rendering of the digest. -/
def sha256hex (msg : List Nat) : String :=
  let d := sha256digest msg
  String.mk (wordHex d.a ++ wordHex d.b ++ wordHex d.c ++ wordHex d.d ++
    wordHex d.e ++ wordHex d.f ++ wordHex d.g ++ wordHex d.h)

/-! ### The fingerprint function (`image_cache_key`, cache.py lines 17-22)

`content = image_bytes + str(top_k).encode()` followed by
`hashlib.sha256(content).hexdigest()`. -/

/-- The exact byte string hashed by `image_cache_key`. -/
def hashInput (image_bytes : List Nat) (top_k : Int) : List Nat :=
  image_bytes ++ intStrBytes top_k

def image_cache_key (image_bytes : List Nat) (top_k : Int) : String :=
  sha256hex (hashInput image_bytes top_k)

theorem sha256hex_length (msg : List Nat) : (sha256hex msg).length = 64 := by
  simp [sha256hex, String.length, wordHex, List.length_append]

/-! ### `cachetools.TTLCache(maxsize=1000, ttl=3600)` (cache.py line 14)

The store behind the wrappers is a cachetools `TTLCache`, documented as an
"LRU Cache implementation with per-item time-to-live (TTL) value":

* every entry records its expiry instant `insertion time + ttl`; an entry
  whose expiry is not strictly in the future is treated as missing;
* `__setitem__` first expunges expired entries, then, for a new key,
  pops least-recently-used entries while the count would exceed
  `maxsize`, and finally appends the entry at the most-recently-used end;
* `__getitem__` (hence `Cache.get`) moves an existing link to the
  most-recently-used end — even when the entry turns out to be expired,
  in which case it raises and `get` returns the default `None` without
  removing the entry;
* `clear` empties the store; `len` counts only non-expired entries.

The state is one list of entries in recency order (head = least recently
used), each entry carrying its expiry instant.  The injectable clock is
an explicit `now : Nat` argument. -/

structure CEntry (V : Type) where
  key : String
  value : V
  expires : Nat
deriving DecidableEq

structure TTLCache (V : Type) where
  maxsize : Nat
  ttl : Nat
  entries : List (CEntry V)
deriving DecidableEq

/-- The `while self.__currsize + 1 > maxsize: self.popitem()` loop of
`Cache.__setitem__`: pop from the least-recently-used end until one more
entry fits (expired entries have already been expunged by the caller). -/
def evictToFit (m : Nat) : List (CEntry V) → List (CEntry V)
  | [] => []
  | e :: t => if t.length + 2 > m then evictToFit m t else e :: t

/-- `cache.get(key)`: look the key up, promote it to most-recently-used
if its link exists, and return its value only when not yet expired. -/
def TTLCache.getOp (c : TTLCache V) (now : Nat) (k : String) :
    Option V × TTLCache V :=
  match c.entries.find? (fun e => e.key == k) with
  | none => (none, c)
  | some e =>
      ((if now < e.expires then some e.value else none),
       { c with entries := c.entries.filter (fun x => !(x.key == k)) ++ [e] })

/-- `cache[key] = value`: expire, then overwrite in place (same count) or
evict least-recently-used entries to make room; the entry lands at the
most-recently-used end with expiry `now + ttl`. -/
def TTLCache.setOp (c : TTLCache V) (now : Nat) (k : String) (v : V) :
    TTLCache V :=
  let es := c.entries.filter (fun e => decide (now < e.expires))
  if es.any (fun e => e.key == k) then
    { c with entries := es.filter (fun e => !(e.key == k)) ++ [⟨k, v, now + c.ttl⟩] }
  else
    { c with entries := evictToFit c.maxsize es ++ [⟨k, v, now + c.ttl⟩] }

def TTLCache.clearOp (c : TTLCache V) : TTLCache V :=
  { c with entries := [] }

structure CacheStats where
  cache_size : Nat
  max_size : Nat
  ttl : Nat
deriving DecidableEq

/-- `{"cache_size": len(cache), "max_size": cache.maxsize, "ttl": cache.ttl}`;
`len` counts only non-expired entries. -/
def TTLCache.statsOp (c : TTLCache V) (now : Nat) : CacheStats :=
  ⟨(c.entries.filter (fun e => decide (now < e.expires))).length, c.maxsize, c.ttl⟩

/-- Observation used by the theorems: the value and expiry stored under a
key (`None` when the key is not in the backing dict at all). -/
def TTLCache.lookupE (c : TTLCache V) (k : String) : Option (V × Nat) :=
  (c.entries.find? (fun e => e.key == k)).map (fun e => (e.value, e.expires))

/-! ### The wrappers of cache.py

`get_cached_result` and `set_cached_result` wrap the store operation in
`try/except Exception`, so a raised internal fault degrades to a miss /
no-op.  `clear_cache` and `get_cache_stats` have no handler.  A fault
raised by the underlying store is injected through the `fault` flag; the
result type records whether the wrapper can propagate it. -/

def get_cached_result (fault : Bool) (c : TTLCache V) (now : Nat)
    (k : String) : Option V × TTLCache V :=
  if fault then (none, c) else TTLCache.getOp c now k

def set_cached_result (fault : Bool) (c : TTLCache V) (now : Nat)
    (k : String) (v : V) : TTLCache V :=
  if fault then c else TTLCache.setOp c now k v

def clear_cache (fault : Bool) (c : TTLCache V) :
    Except String (TTLCache V) :=
  if fault then Except.error "cache clear raised" else Except.ok (TTLCache.clearOp c)

def get_cache_stats (fault : Bool) (c : TTLCache V) (now : Nat) :
    Except String CacheStats :=
  if fault then Except.error "cache stats raised" else Except.ok (TTLCache.statsOp c now)

/-! ### The classification pipeline (endpoints.py)

PIL (`Image.open`, `thumbnail`) and the torch classifier are the opaque
collaborators the spec names; they are fields of `Collab`.  Prediction
probabilities are carried as `Rat` (no arithmetic is performed on them).
The wall-clock time measured on the miss path is the `elapsed` argument. -/

structure Pred where
  class_name : String
  probability : Rat
  class_id : Int
deriving DecidableEq

structure ClassificationResponse where
  predictions : List Pred
  model_info : List (String × String)
  processing_time_ms : Nat
deriving DecidableEq

structure Img where
  width : Nat
  height : Nat
  pix : List Nat
deriving DecidableEq

structure Collab where
  decode : List Nat → Except String Img
  thumbnail : Img → Img
  predict : Img → Int → Except String (List Pred)
  modelInfo : List (String × String)

inductive ApiError where
  | badRequest (detail : String)
  | serverError (detail : String)
deriving DecidableEq

/-- Python's `s.startswith(pre)`, on character lists. -/
def strBegins : List Char → List Char → Bool
  | _, [] => true
  | [], _ :: _ => false
  | c :: cs, d :: ds => c == d && strBegins cs ds

/-- `not file.content_type or not file.content_type.startswith("image/")`,
negated: a missing or empty content type fails, as does one not starting
with `image/`. -/
def contentTypeOk : Option String → Bool
  | none => false
  | some s => strBegins s.data "image/".data

/-- In-place mutation of the dict stored under `k` (Python aliasing: the
object returned by `cache.get` is the stored object, so assigning to one
of its keys rewrites the cached value without touching link order or
expiry). -/
def TTLCache.mutateValue (c : TTLCache V) (k : String) (v : V) : TTLCache V :=
  { c with entries := c.entries.map (fun e => if e.key = k then { e with value := v } else e) }

/-- The `POST /classify` handler (endpoints.py lines 95-167).  Returns the
HTTP outcome and the cache state after the request.  `gf` / `sf` inject a
fault into the wrapped cache get / set. -/
def classify_image (C : Collab) (gf sf : Bool)
    (cache : TTLCache ClassificationResponse) (now : Nat)
    (content_type : Option String) (image_data : List Nat) (top_k : Int)
    (elapsed : Nat) :
    Except ApiError ClassificationResponse × TTLCache ClassificationResponse :=
  if ¬ contentTypeOk content_type then
    (Except.error (ApiError.badRequest "File must be an image"), cache)
  else if 10000000 < image_data.length then
    (Except.error (ApiError.badRequest "Image too large (max 10MB)"), cache)
  else
    let key := image_cache_key image_data top_k
    match get_cached_result gf cache now key with
    | (some v, c1) =>
        let v0 : ClassificationResponse := { v with processing_time_ms := 0 }
        (Except.ok v0, TTLCache.mutateValue c1 key v0)
    | (none, c1) =>
        match C.decode image_data with
        | Except.error e =>
            (Except.error (ApiError.serverError ("Classification failed: " ++ e)), c1)
        | Except.ok img =>
            if img.width = 0 ∨ img.height = 0 then
              (Except.error (ApiError.badRequest "Invalid image dimensions"), c1)
            else
              let img2 := if 1024 < img.width ∨ 1024 < img.height then C.thumbnail img else img
              match C.predict img2 top_k with
              | Except.error e =>
                  (Except.error (ApiError.serverError ("Classification failed: " ++ e)), c1)
              | Except.ok preds =>
                  let resp : ClassificationResponse := ⟨preds, C.modelInfo, elapsed⟩
                  (Except.ok resp, set_cached_result sf c1 now key resp)

/-! ### The batch handler (endpoints.py lines 185-270) -/

structure BatchFile where
  content_type : Option String
  filename : Option String
  data : List Nat
deriving DecidableEq

instance exceptDecEq {ε α : Type} [DecidableEq ε] [DecidableEq α] :
    DecidableEq (Except ε α) := fun x y =>
  match x, y with
  | Except.ok a, Except.ok b =>
      if h : a = b then Decidable.isTrue (by rw [h])
      else Decidable.isFalse (by intro hh; injection hh; exact h (by assumption))
  | Except.error a, Except.error b =>
      if h : a = b then Decidable.isTrue (by rw [h])
      else Decidable.isFalse (by intro hh; injection hh; exact h (by assumption))
  | Except.ok _, Except.error _ => Decidable.isFalse (fun hh => Except.noConfusion hh)
  | Except.error _, Except.ok _ => Decidable.isFalse (fun hh => Except.noConfusion hh)

structure BatchEntry where
  file_index : Nat
  filename : Option String
  outcome : Except String (List Pred × List (String × String))
deriving DecidableEq

structure BatchResponse where
  results : List BatchEntry
  total_files : Nat
  successful_files : Nat
  processing_time_ms : Nat
deriving DecidableEq

/-- Whether a result dict carries the `"error"` key. -/
def hasError (r : BatchEntry) : Bool :=
  match r.outcome with
  | Except.error _ => true
  | Except.ok _ => false

/-- The body of the per-file loop: each `continue` / `except` branch
appends an error entry, the success path appends predictions and model
info.  A decode failure is caught by the per-item handler. -/
def processItem (C : Collab) (top_k : Int) (i : Nat) (f : BatchFile) :
    BatchEntry :=
  if ¬ contentTypeOk f.content_type then
    ⟨i, f.filename, Except.error "File must be an image"⟩
  else if 10000000 < f.data.length then
    ⟨i, f.filename, Except.error "Image too large (max 10MB)"⟩
  else
    match C.decode f.data with
    | Except.error e => ⟨i, f.filename, Except.error e⟩
    | Except.ok img =>
        if img.width = 0 ∨ img.height = 0 then
          ⟨i, f.filename, Except.error "Invalid image dimensions"⟩
        else
          let img2 := if 1024 < img.width ∨ 1024 < img.height then C.thumbnail img else img
          match C.predict img2 top_k with
          | Except.error e => ⟨i, f.filename, Except.error e⟩
          | Except.ok preds => ⟨i, f.filename, Except.ok (preds, C.modelInfo)⟩

/-- `results = []` followed by `for i, file in enumerate(files): ...
results.append(...)`. -/
def batchLoop (C : Collab) (top_k : Int) (files : List BatchFile) :
    List BatchEntry :=
  files.enum.foldl (fun acc p => acc ++ [processItem C top_k p.1 p.2]) []

/-- The `POST /classify-batch` handler: rejects more than 10 files, else
runs the loop and reports `successful_files` as the number of result
dicts without an `"error"` key.  The batch path never touches the cache. -/
def classify_batch (C : Collab) (files : List BatchFile) (top_k : Int)
    (elapsed : Nat) : Except ApiError BatchResponse :=
  if 10 < files.length then
    Except.error (ApiError.badRequest "Maximum 10 images per batch")
  else
    let results := batchLoop C top_k files
    Except.ok ⟨results, files.length,
      (results.filter (fun r => !hasError r)).length, elapsed⟩

/-! ### Lemmas about the cache model -/

/-- Keys are pairwise distinct — the invariant of a dict-backed store. -/
def TTLCache.WF (c : TTLCache V) : Prop :=
  (c.entries.map (fun e => e.key)).Nodup

theorem evictToFit_eq_drop (m : Nat) (es : List (CEntry V)) :
    evictToFit m es = es.drop (es.length + 1 - m) := by
  induction es with
  | nil => simp [evictToFit]
  | cons e t ih =>
    simp only [evictToFit]
    by_cases h : t.length + 2 > m
    · rw [if_pos h, ih]
      have h2 : (e :: t).length + 1 - m = (t.length + 1 - m) + 1 := by
        simp only [List.length_cons]; omega
      rw [h2, List.drop_succ_cons]
    · rw [if_neg h]
      have h2 : (e :: t).length + 1 - m = 0 := by
        simp only [List.length_cons]; omega
      rw [h2, List.drop_zero]

theorem find?_entry_key {l : List (CEntry V)} {k : String} {e : CEntry V}
    (h : l.find? (fun x => x.key == k) = some e) : e.key = k := by
  have := List.find?_some h
  simpa using this

/-- Filtering out key `k` does not change what is found under any other key. -/
theorem find?_filter_ne (l : List (CEntry V)) (k k' : String) (h : k' ≠ k) :
    (l.filter (fun x => !(x.key == k))).find? (fun x => x.key == k') =
      l.find? (fun x => x.key == k') := by
  induction l with
  | nil => rfl
  | cons a t ih =>
    by_cases hak : a.key = k
    · have h1 : (!(a.key == k)) = false := by simp [hak]
      have h2 : (a.key == k') = false := by simp [hak]; exact fun hh => h hh.symm
      rw [List.filter_cons, h1]
      simp only [Bool.false_eq_true, if_false]
      rw [ih, List.find?_cons, h2]
    · have h1 : (!(a.key == k)) = true := by simp [hak]
      rw [List.filter_cons, h1]
      simp only [if_true]
      rw [List.find?_cons, List.find?_cons]
      cases hak' : (a.key == k') with
      | true => rfl
      | false => exact ih

theorem find?_filter_self_none (l : List (CEntry V)) (k : String) :
    (l.filter (fun x => !(x.key == k))).find? (fun x => x.key == k) = none := by
  apply List.find?_eq_none.mpr
  intro x hx
  rcases List.mem_filter.mp hx with ⟨_, hp⟩
  simp at hp ⊢
  exact hp

/-- With pairwise-distinct keys, any member with the sought key is the one
`find?` returns. -/
theorem find?_key_unique {l : List (CEntry V)} {k : String}
    (hnd : (l.map (fun e => e.key)).Nodup) {x : CEntry V}
    (hx : x ∈ l) (hk : x.key = k) :
    l.find? (fun e => e.key == k) = some x := by
  induction l with
  | nil => cases hx
  | cons a t ih =>
    rw [List.map_cons, List.nodup_cons] at hnd
    rcases List.mem_cons.mp hx with rfl | hxt
    · rw [List.find?_cons_of_pos]
      simp [hk]
    · have hax : a.key ≠ k := by
        intro hak
        exact hnd.1 (by rw [hak, ← hk]; exact List.mem_map_of_mem _ hxt)
      rw [List.find?_cons_of_neg _ (by simp [hax])]
      exact ih hnd.2 hxt

/-- `cache.get` never changes the value or expiry stored under any key:
it only promotes the accessed link. -/
theorem getOp_lookupE (c : TTLCache V) (now : Nat) (k k' : String) :
    ((c.getOp now k).2).lookupE k' = c.lookupE k' := by
  unfold TTLCache.getOp
  cases hf : c.entries.find? (fun e => e.key == k) with
  | none => rfl
  | some e =>
    have hek : e.key = k := find?_entry_key hf
    simp only [TTLCache.lookupE]
    by_cases hkk : k' = k
    · subst hkk
      rw [List.find?_append, find?_filter_self_none]
      simp only [Option.none_or]
      rw [List.find?_cons_of_pos _ (by simp [hek]), hf]
    · rw [List.find?_append, find?_filter_ne c.entries k k' hkk]
      cases hg : c.entries.find? (fun x => x.key == k') with
      | some y => rfl
      | none =>
        simp only [Option.none_or]
        rw [List.find?_cons_of_neg _ (by simp [hek]; exact fun hh => hkk hh.symm)]
        rfl

/-- After `cache[k] = v` at time `now`, the store maps `k` to `v` with
expiry `now + ttl`. -/
theorem setOp_lookupE_self (c : TTLCache V) (now : Nat) (k : String) (v : V) :
    (c.setOp now k v).lookupE k = some (v, now + c.ttl) := by
  unfold TTLCache.setOp TTLCache.lookupE
  cases hany : (c.entries.filter (fun e => decide (now < e.expires))).any (fun e => e.key == k) with
  | true =>
    simp only [hany, if_true]
    rw [List.find?_append, find?_filter_self_none]
    simp only [Option.none_or]
    rw [List.find?_cons_of_pos _ (by simp)]
    rfl
  | false =>
    simp only [hany, Bool.false_eq_true, if_false]
    have hall := List.any_eq_false.mp hany
    have hnone : (evictToFit c.maxsize
        (c.entries.filter (fun e => decide (now < e.expires)))).find?
          (fun x => x.key == k) = none := by
      apply List.find?_eq_none.mpr
      intro x hx
      refine hall x ?_
      have hs : List.Sublist (evictToFit c.maxsize (c.entries.filter (fun e => decide (now < e.expires))))
          (c.entries.filter (fun e => decide (now < e.expires))) := by
        rw [evictToFit_eq_drop]; exact List.drop_sublist _ _
      exact hs.subset hx
    rw [List.find?_append, hnone]
    simp only [Option.none_or]
    rw [List.find?_cons_of_pos _ (by simp)]
    rfl

/-- A `put` of a different key never alters what is stored under `k`:
whatever remains under `k` afterwards was there, unmodified, before. -/
theorem setOp_lookupE_other (c : TTLCache V) (now : Nat) (k k' : String)
    (v : V) (hwf : c.WF) (hne : k' ≠ k) (p : V × Nat)
    (h : (c.setOp now k v).lookupE k' = some p) : c.lookupE k' = some p := by
  unfold TTLCache.setOp TTLCache.lookupE at h
  have sub1 : ∀ x ∈ c.entries.filter (fun e => decide (now < e.expires)), x ∈ c.entries :=
    fun x hx => (List.mem_filter.mp hx).1
  cases hany : (c.entries.filter (fun e => decide (now < e.expires))).any (fun e => e.key == k) with
  | true =>
    simp only [hany, if_true] at h
    rw [List.find?_append] at h
    rw [List.find?_cons_of_neg _ (by simp; exact fun hh => hne hh.symm)] at h
    simp only [List.find?_nil, Option.or_none] at h
    cases hf : (c.entries.filter (fun e => decide (now < e.expires))).filter
        (fun e => !(e.key == k)) |>.find? (fun e => e.key == k') with
    | none => rw [hf] at h; simp at h
    | some x =>
      rw [hf] at h
      simp only [Option.map_some'] at h
      have hxk : x.key = k' := find?_entry_key hf
      have hxm : x ∈ c.entries := by
        have := List.mem_of_find?_eq_some hf
        rcases List.mem_filter.mp this with ⟨h1, _⟩
        exact sub1 x h1
      rw [TTLCache.lookupE, find?_key_unique hwf hxm hxk]
      simpa using h
  | false =>
    simp only [hany, Bool.false_eq_true, if_false] at h
    rw [List.find?_append] at h
    rw [List.find?_cons_of_neg _ (by simp; exact fun hh => hne hh.symm)] at h
    simp only [List.find?_nil, Option.or_none] at h
    cases hf : (evictToFit c.maxsize (c.entries.filter (fun e => decide (now < e.expires)))).find?
        (fun e => e.key == k') with
    | none => rw [hf] at h; simp at h
    | some x =>
      rw [hf] at h
      simp only [Option.map_some'] at h
      have hxk : x.key = k' := find?_entry_key hf
      have hxm : x ∈ c.entries := by
        have hmem := List.mem_of_find?_eq_some hf
        have hs : List.Sublist (evictToFit c.maxsize (c.entries.filter (fun e => decide (now < e.expires))))
            (c.entries.filter (fun e => decide (now < e.expires))) := by
          rw [evictToFit_eq_drop]; exact List.drop_sublist _ _
        exact sub1 x (hs.subset hmem)
      rw [TTLCache.lookupE, find?_key_unique hwf hxm hxk]
      simpa using h

/-- In-place mutation of the dict under `k` leaves every other key's
stored pair untouched. -/
theorem mutateValue_lookupE_other (c : TTLCache V) (k k'' : String) (v : V)
    (h : k'' ≠ k) : (c.mutateValue k v).lookupE k'' = c.lookupE k'' := by
  unfold TTLCache.mutateValue TTLCache.lookupE
  induction c.entries with
  | nil => rfl
  | cons a t ih =>
    simp only [List.map_cons]
    by_cases hak : a.key = k
    · have h2 : ((if a.key = k then { a with value := v } else a).key == k'') = false := by
        simp only [hak, if_true]
        simp only [beq_eq_false_iff_ne, ne_eq]
        exact fun hh => h hh.symm
      have h3 : (a.key == k'') = false := by
        simp only [hak, beq_eq_false_iff_ne, ne_eq]
        exact fun hh => h hh.symm
      rw [List.find?_cons, h2, List.find?_cons, h3]
      exact ih
    · simp only [hak, if_false]
      rw [List.find?_cons, List.find?_cons]
      cases hk2 : (a.key == k'') with
      | true => rfl
      | false => exact ih

/-- In-place mutation of the dict under `k` replaces the first stored
value under `k`, keeping its expiry. -/
theorem mutateValue_lookupE_self (c : TTLCache V) (k : String) (v : V)
    (p : V × Nat) (h : c.lookupE k = some p) :
    (c.mutateValue k v).lookupE k = some (v, p.2) := by
  unfold TTLCache.lookupE at h
  unfold TTLCache.mutateValue TTLCache.lookupE
  revert h
  induction c.entries with
  | nil => intro h; simp at h
  | cons a t ih =>
    intro h
    simp only [List.map_cons]
    by_cases hak : a.key = k
    · rw [List.find?_cons_of_pos _ (by simp [hak])] at h
      simp only [Option.map_some'] at h
      rw [hak]
      simp only [if_true]
      rw [List.find?_cons_of_pos _ (by simp [hak])]
      simp only [Option.map_some']
      injection h with h4
      subst h4
      rfl
    · rw [List.find?_cons_of_neg _ (by simp [hak])] at h
      simp only [hak, if_false]
      rw [List.find?_cons_of_neg _ (by simp [hak])]
      exact ih h

/-- Insert a sequence of keys (all with value `v`) one after another at
the same instant — the capacity-eviction test scenario. -/
def putList (c : TTLCache V) (now : Nat) (ks : List String) (v : V) : TTLCache V :=
  ks.foldl (fun c k => c.setOp now k v) c

theorem drop_append_le {α : Type} (l₁ l₂ : List α) (n : Nat) (h : n ≤ l₁.length) :
    (l₁ ++ l₂).drop n = l₁.drop n ++ l₂ := by
  conv_lhs => rw [← List.take_append_drop n l₁]
  rw [List.append_assoc, List.drop_left' (by rw [List.length_take]; omega)]

/-- Inserting a fresh key into a cache whose entries all expire at
`now + ttl` keeps the newest `maxsize - 1` entries and appends the new
one. -/
theorem setOp_fresh (m ttl now : Nat) (v : V) (s : List String) (k : String)
    (httl : 1 ≤ ttl) (hk : k ∉ s) :
    TTLCache.setOp ⟨m, ttl, s.map (fun k0 => ⟨k0, v, now + ttl⟩)⟩ now k v =
      ⟨m, ttl, ((s.drop (s.length + 1 - m)) ++ [k]).map (fun k0 => ⟨k0, v, now + ttl⟩)⟩ := by
  have hfil : (s.map (fun k0 => (⟨k0, v, now + ttl⟩ : CEntry V))).filter
      (fun e => decide (now < e.expires)) = s.map (fun k0 => ⟨k0, v, now + ttl⟩) := by
    apply List.filter_eq_self.mpr
    intro a ha
    rcases List.mem_map.mp ha with ⟨k0, _, rfl⟩
    simp
    omega
  have hany : (s.map (fun k0 => (⟨k0, v, now + ttl⟩ : CEntry V))).any
      (fun e => e.key == k) = false := by
    apply List.any_eq_false.mpr
    intro x hx
    rcases List.mem_map.mp hx with ⟨k0, hk0, rfl⟩
    simp
    exact fun hh => hk (hh ▸ hk0)
  simp only [TTLCache.setOp, hfil, hany, Bool.false_eq_true, if_false]
  rw [evictToFit_eq_drop]
  simp only [List.length_map, List.map_append, List.map_drop, List.map_cons, List.map_nil]

theorem putList_window (m ttl now : Nat) (v : V) (hm : 1 ≤ m) (httl : 1 ≤ ttl) :
    ∀ (ks s : List String), (s ++ ks).Nodup → s.length ≤ m →
      putList ⟨m, ttl, s.map (fun k0 => ⟨k0, v, now + ttl⟩)⟩ now ks v =
        ⟨m, ttl, ((s ++ ks).drop (s.length + ks.length - m)).map
          (fun k0 => ⟨k0, v, now + ttl⟩)⟩ := by
  intro ks
  induction ks with
  | nil =>
    intro s hnd hle
    simp only [putList, List.foldl_nil, List.append_nil, List.length_nil, Nat.add_zero]
    have h0 : s.length - m = 0 := by omega
    rw [h0, List.drop_zero]
  | cons k ks' ih =>
    intro s hnd hle
    have hstep : putList ⟨m, ttl, s.map (fun k0 => ⟨k0, v, now + ttl⟩)⟩ now (k :: ks') v =
        putList (TTLCache.setOp ⟨m, ttl, s.map (fun k0 => ⟨k0, v, now + ttl⟩)⟩ now k v)
          now ks' v := rfl
    have hks : k ∉ s := by
      intro hmem
      rcases List.nodup_append.mp hnd with ⟨_, _, hdisj⟩
      exact hdisj hmem (List.mem_cons_self k ks')
    rw [hstep, setOp_fresh m ttl now v s k httl hks]
    have hnd2 : ((s.drop (s.length + 1 - m) ++ [k]) ++ ks').Nodup := by
      have h1 : (s.drop (s.length + 1 - m) ++ [k]) ++ ks' =
          s.drop (s.length + 1 - m) ++ (k :: ks') := by
        rw [List.append_assoc]
        rfl
      rw [h1]
      exact (List.Sublist.append_right (List.drop_sublist _ _) (k :: ks')).nodup hnd
    have hlen2 : (s.drop (s.length + 1 - m) ++ [k]).length ≤ m := by
      simp only [List.length_append, List.length_drop, List.length_cons, List.length_nil]
      omega
    rw [ih (s.drop (s.length + 1 - m) ++ [k]) hnd2 hlen2]
    have hlists : ((s.drop (s.length + 1 - m) ++ [k]) ++ ks').drop
          ((s.drop (s.length + 1 - m) ++ [k]).length + ks'.length - m) =
        (s ++ k :: ks').drop (s.length + (k :: ks').length - m) := by
      have hassoc : (s.drop (s.length + 1 - m) ++ [k]) ++ ks' =
          s.drop (s.length + 1 - m) ++ (k :: ks') := by
        rw [List.append_assoc]
        rfl
      rw [hassoc]
      by_cases hcase : s.length + 1 ≤ m
      · have hd0 : s.length + 1 - m = 0 := by omega
        rw [hd0, List.drop_zero]
        have hcnt : (s ++ [k]).length + ks'.length - m =
            s.length + (k :: ks').length - m := by
          simp only [List.length_append, List.length_cons, List.length_nil]
          omega
        rw [hcnt]
      · have hd : s.length + 1 - m ≤ s.length := by omega
        have hcnt : (s.drop (s.length + 1 - m) ++ [k]).length + ks'.length - m =
            ks'.length := by
          simp only [List.length_append, List.length_drop, List.length_cons,
            List.length_nil]
          omega
        rw [hcnt]
        have hrhs : s.length + (k :: ks').length - m =
            (s.length + 1 - m) + ks'.length := by
          simp only [List.length_cons]
          omega
        rw [hrhs, ← List.drop_drop, drop_append_le s (k :: ks') (s.length + 1 - m) hd]
    rw [hlists]

/-! ### Claim theorems -/

theorem intStrBytes_valid (k : Int) (h1 : 1 ≤ k) (h2 : k ≤ 10) :
    (k ≤ 9 ∧ intStrBytes k = [48 + k.toNat] ∧ 49 ≤ 48 + k.toNat ∧ 48 + k.toNat ≤ 57) ∨
    (k = 10 ∧ intStrBytes k = [49, 48]) := by
  by_cases h9 : k ≤ 9
  · left
    refine ⟨h9, ?_, by omega, by omega⟩
    interval_cases k <;> rfl
  · right
    have hk : k = 10 := by omega
    subst hk
    exact ⟨rfl, rfl⟩

/-- C6: two requests that differ in `top_k` (same bytes), or in the raw
bytes (same `top_k`), always hash different inputs, so their fingerprints
can only coincide if SHA-256 itself collides on two distinct inputs - the
"overwhelming probability" reading fixed by the claim's own parenthetical.
`image_cache_key` hashes `image_bytes ++ str(top_k).encode()`. -/
theorem C6_key_sensitivity (b b1 b2 : List Nat) (k k1 k2 : Int) :
    (k1 ≠ k2 → hashInput b k1 ≠ hashInput b k2) ∧
    (b1 ≠ b2 → hashInput b1 k ≠ hashInput b2 k) ∧
    (image_cache_key b k1 = image_cache_key b k2 → k1 ≠ k2 →
      ∃ x y : List Nat, x ≠ y ∧ sha256hex x = sha256hex y) := by
  refine ⟨?_, ?_, ?_⟩
  · intro hk heq
    exact hk (intStrBytes_inj k1 k2 (List.append_cancel_left heq))
  · intro hb heq
    exact hb (List.append_cancel_right heq)
  · intro heq hk
    exact ⟨hashInput b k1, hashInput b k2,
      fun hh => hk (intStrBytes_inj k1 k2 (List.append_cancel_left hh)), heq⟩

theorem C6_key_sensitivity_witness :
    hashInput [0] 1 ≠ hashInput [0] 2 ∧ hashInput [0] 1 ≠ hashInput [1] 1 :=
  ⟨(C6_key_sensitivity [0] [0] [1] 1 1 2).1 (by decide),
   (C6_key_sensitivity [0] [0] [1] 1 1 2).2.1 (by decide)⟩

/-- C7: the fingerprint is a pure total function - any byte list and any
integer produce a key, repeated calls agree definitionally, and the key
always has the fixed length 64 (a SHA-256 hex digest). -/
theorem C7_fingerprint_total (b : List Nat) (k : Int) :
    image_cache_key b k = image_cache_key b k ∧ (image_cache_key b k).length = 64 :=
  ⟨rfl, sha256hex_length _⟩

/-- C10: within the validated range `top_k ∈ [1,10]` the concatenation
`image_bytes ++ str(top_k).encode()` is injective, so no two distinct
validated requests share a hash input; outside that range the encoding is
ambiguous - the claim's own example `(b"1", 1)` vs `(b"", 11)` hashes the
same input, by the second conjunct. -/
theorem C10_validated_injective :
    (∀ (b1 b2 : List Nat) (k1 k2 : Int), 1 ≤ k1 → k1 ≤ 10 → 1 ≤ k2 → k2 ≤ 10 →
      hashInput b1 k1 = hashInput b2 k2 → b1 = b2 ∧ k1 = k2) ∧
    hashInput [49] 1 = hashInput [] 11 := by
  constructor
  · intro b1 b2 k1 k2 h11 h12 h21 h22 heq
    unfold hashInput at heq
    rcases intStrBytes_valid k1 h11 h12 with ⟨h9a, he1, hlo1, hhi1⟩ | ⟨hk1, he1⟩ <;>
      rcases intStrBytes_valid k2 h21 h22 with ⟨h9b, he2, hlo2, hhi2⟩ | ⟨hk2, he2⟩
    · rw [he1, he2] at heq
      rcases List.append_inj' heq (by simp) with ⟨hb, hd⟩
      refine ⟨hb, ?_⟩
      have hdd : 48 + k1.toNat = 48 + k2.toNat := by simpa using hd
      omega
    · exfalso
      rw [he1, he2] at heq
      have hl1 : (b1 ++ [48 + k1.toNat]).getLast? = some (48 + k1.toNat) :=
        List.getLast?_concat _
      have hl2 : (b2 ++ [49, 48]).getLast? = some 48 := by
        have hsplit : b2 ++ [49, 48] = (b2 ++ [49]) ++ [48] := by simp
        rw [hsplit]
        exact List.getLast?_concat _
      rw [heq, hl2] at hl1
      injection hl1 with hx
      omega
    · exfalso
      rw [he1, he2] at heq
      have hl1 : (b2 ++ [48 + k2.toNat]).getLast? = some (48 + k2.toNat) :=
        List.getLast?_concat _
      have hl2 : (b1 ++ [49, 48]).getLast? = some 48 := by
        have hsplit : b1 ++ [49, 48] = (b1 ++ [49]) ++ [48] := by simp
        rw [hsplit]
        exact List.getLast?_concat _
      rw [← heq, hl2] at hl1
      injection hl1 with hx
      omega
    · rw [he1, he2] at heq
      exact ⟨(List.append_inj' heq rfl).1, by rw [hk1, hk2]⟩
  · rfl

theorem C10_validated_injective_witness :
    ((1 : Int) ≤ 3 ∧ (3 : Int) ≤ 10) ∧ (([7] : List Nat) = [7] ∧ (3 : Int) = 3) :=
  ⟨⟨by decide, by decide⟩,
   C10_validated_injective.1 [7] [7] 3 3 (by decide) (by decide) (by decide)
     (by decide) (by decide)⟩

/-- C4: an entry inserted at `t` with TTL `T` is returned by `get` at any
`t'` with `t' - t < T` and treated as absent once `t' - t ≥ T`; and a
present-but-expired entry is reported absent by `get` whatever the
capacity state (the second part holds for every cache value of every
shape, with no reference to `maxsize`). -/
theorem C4_ttl_expiry {V : Type} (c : TTLCache V) (t t' now : Nat) (k : String)
    (v : V) (e : CEntry V) :
    (t ≤ t' →
      ((c.setOp t k v).getOp t' k).1 = if t' - t < c.ttl then some v else none) ∧
    (c.entries.find? (fun x => x.key == k) = some e → e.expires ≤ now →
      (c.getOp now k).1 = none) := by
  constructor
  · intro ht
    have hl := setOp_lookupE_self c t k v
    unfold TTLCache.lookupE at hl
    unfold TTLCache.getOp
    cases hf : (c.setOp t k v).entries.find? (fun x => x.key == k) with
    | none => rw [hf] at hl; simp at hl
    | some e' =>
      rw [hf] at hl
      simp only [Option.map_some'] at hl
      injection hl with hl2
      have hv : e'.value = v := congrArg Prod.fst hl2
      have he : e'.expires = t + c.ttl := congrArg Prod.snd hl2
      by_cases hlt : t' - t < c.ttl
      · rw [if_pos hlt]
        have hx : t' < e'.expires := by omega
        simp [hx, hv]
      · rw [if_neg hlt]
        have hx : ¬ t' < e'.expires := by omega
        simp [hx]
  · intro hf he2
    unfold TTLCache.getOp
    rw [hf]
    simp [Nat.not_lt.mpr he2]

theorem C4_ttl_expiry_witness :
    ((0 : Nat) ≤ 5 ∧
      (((⟨1000, 10, []⟩ : TTLCache Nat).setOp 0 "k" 7).getOp 5 "k").1 = some 7) ∧
    ((((⟨1000, 10, []⟩ : TTLCache Nat).setOp 0 "k" 7).getOp 12 "k").1 = none) :=
  ⟨⟨by decide,
    ((C4_ttl_expiry (⟨1000, 10, []⟩ : TTLCache Nat) 0 5 0 "k" 7
      ⟨"k", 7, 10⟩).1 (by decide)).trans (by decide)⟩,
   (C4_ttl_expiry ((⟨1000, 10, []⟩ : TTLCache Nat).setOp 0 "k" 7) 0 0 12 "k" 7
      ⟨"k", 7, 10⟩).2 (by decide) (by decide)⟩

/-- C5 amended: `get_cached_result` and `set_cached_result` wrap the
store in `try/except`, so an injected internal fault degrades to a miss
resp. a silent no-op and the pipeline still answers (last conjunct: with
both cache operations faulting, a well-formed request succeeds with a
computed result and an unchanged cache).  `clear_cache` and
`get_cache_stats`, however, have no handler in cache.py, so a fault in
the underlying store would propagate to their caller - the claim's
"never raises" does not extend to them. -/
theorem C5_no_raise {V : Type} (c : TTLCache V) (now : Nat) (k : String) (v : V) :
    (get_cached_result true c now k = (none, c) ∧
     set_cached_result true c now k v = c) ∧
    (clear_cache true c = Except.error "cache clear raised" ∧
     get_cache_stats true c now = Except.error "cache stats raised") ∧
    (clear_cache false c = Except.ok (TTLCache.clearOp c) ∧
     get_cache_stats false c now = Except.ok (TTLCache.statsOp c now)) ∧
    (∀ (C : Collab) (c2 : TTLCache ClassificationResponse) (ct : Option String)
       (bytes : List Nat) (topk : Int) (elapsed : Nat) (img : Img) (preds : List Pred),
      contentTypeOk ct = true → bytes.length ≤ 10000000 →
      C.decode bytes = Except.ok img → img.width ≠ 0 → img.height ≠ 0 →
      C.predict (if 1024 < img.width ∨ 1024 < img.height then C.thumbnail img else img)
        topk = Except.ok preds →
      classify_image C true true c2 now ct bytes topk elapsed =
        (Except.ok ⟨preds, C.modelInfo, elapsed⟩, c2)) := by
  refine ⟨⟨rfl, rfl⟩, ⟨rfl, rfl⟩, ⟨rfl, rfl⟩, ?_⟩
  intro C c2 ct bytes topk elapsed img preds hct hsz hdec hw hh hpred
  have hsz2 : ¬ 10000000 < bytes.length := by omega
  simp [classify_image, hct, hsz2, get_cached_result, hdec, hw, hh, hpred,
    set_cached_result]

theorem C5_no_raise_witness :
    contentTypeOk (some "image/png") = true ∧
    classify_image
      ⟨fun bs => Except.ok ⟨2, 2, bs⟩, fun i => i,
       fun _ _ => Except.ok [⟨"tabby", 1, 281⟩], [("model_name", "resnet50")]⟩
      true true (⟨1000, 3600, []⟩ : TTLCache ClassificationResponse) 0
      (some "image/png") [1, 2] 5 44 =
      (Except.ok ⟨[⟨"tabby", 1, 281⟩], [("model_name", "resnet50")], 44⟩,
       (⟨1000, 3600, []⟩ : TTLCache ClassificationResponse)) :=
  ⟨by decide,
   (C5_no_raise (⟨1000, 3600, []⟩ : TTLCache Nat) 0 "k" 7).2.2.2
     ⟨fun bs => Except.ok ⟨2, 2, bs⟩, fun i => i,
      fun _ _ => Except.ok [⟨"tabby", 1, 281⟩], [("model_name", "resnet50")]⟩
     (⟨1000, 3600, []⟩ : TTLCache ClassificationResponse)
     (some "image/png") [1, 2] 5 44 ⟨2, 2, [1, 2]⟩ [⟨"tabby", 1, 281⟩]
     (by decide) (by decide) (by decide) (by decide) (by decide) (by decide)⟩

/-- C5 counterexample: the claim says no cache operation - `clear`
included - ever raises to its caller, any internal fault being caught.
`clear_cache` has no `try/except` (cache.py lines 51-54), so an injected
fault in the underlying store's `clear` propagates. -/
theorem C5_counterexample :
    clear_cache true (⟨1000, 3600, []⟩ : TTLCache Nat) =
      Except.error "cache clear raised" ∧
    get_cache_stats true (⟨1000, 3600, []⟩ : TTLCache Nat) 0 =
      Except.error "cache stats raised" := by
  exact ⟨rfl, rfl⟩

/-- C3 counterexample: maxsize 2, TTL 100.  Insert "a" at `t=0` and "b"
at `t=1`, read "a" at `t=2` (the cachetools `TTLCache.__getitem__`
promotes the link), insert "c" at `t=3`.  The insert exceeds the maximum
count (third conjunct: the cache held 2 = maxsize non-expired entries),
and the entry with the oldest insertion timestamp among non-expired
entries is "a" (inserted at 0, expires at 100) - yet "a" survives with
its stored pair intact and "b" is the entry evicted: capacity eviction
is least-recently-used, not oldest-inserted. -/
theorem C3_counterexample :
    (((((⟨2, 100, []⟩ : TTLCache Nat).setOp 0 "a" 7).setOp 1 "b" 8).getOp 2 "a").2.setOp 3 "c" 9).lookupE "a"
        = some (7, 100) ∧
    (((((⟨2, 100, []⟩ : TTLCache Nat).setOp 0 "a" 7).setOp 1 "b" 8).getOp 2 "a").2.setOp 3 "c" 9).lookupE "b"
        = none ∧
    (((((⟨2, 100, []⟩ : TTLCache Nat).setOp 0 "a" 7).setOp 1 "b" 8).getOp 2 "a").2.entries.filter
        (fun e => decide (3 < e.expires))).length = 2 := by
  decide

/-- C3 amended: capacity eviction removes the least-recently-used
non-expired entry - the head of the recency list - rather than the
oldest-inserted one (first conjunct: an at-capacity insert of a fresh key
keeps the tail of the recency order and appends the new entry).  When no
lookups intervene, recency order and insertion order coincide, so the
claim's count scenario holds: inserting `max_size + 1` distinct keys into
an empty cache leaves exactly `max_size` entries and the first-inserted
key is the one gone (second conjunct). -/
theorem C3_capacity_eviction {V : Type} (c : TTLCache V) (now : Nat) (k : String)
    (v : V) (m ttl t : Nat) (ks : List String) (w : V) (k0 : String) :
    ((c.entries.filter (fun e => decide (now < e.expires))).any (fun e => e.key == k) = false →
      (c.entries.filter (fun e => decide (now < e.expires))).length = c.maxsize →
      1 ≤ c.maxsize →
      (c.setOp now k v).entries =
        (c.entries.filter (fun e => decide (now < e.expires))).tail ++
          [⟨k, v, now + c.ttl⟩]) ∧
    (1 ≤ m → 1 ≤ ttl → ks.Nodup → ks.length = m + 1 →
      (putList ⟨m, ttl, []⟩ t ks w).entries =
        (ks.drop 1).map (fun k1 => ⟨k1, w, t + ttl⟩) ∧
      (putList ⟨m, ttl, []⟩ t ks w).entries.length = m ∧
      (ks.head? = some k0 → (putList ⟨m, ttl, []⟩ t ks w).lookupE k0 = none)) := by
  constructor
  · intro hany hlen hm
    simp only [TTLCache.setOp, hany, Bool.false_eq_true, if_false]
    rw [evictToFit_eq_drop, hlen]
    have h1 : c.maxsize + 1 - c.maxsize = 1 := by omega
    rw [h1, List.drop_one]
  · intro hm httl hnd hlen
    have hw := putList_window m ttl t w hm httl ks [] (by simpa using hnd) (by simp)
    simp only [List.map_nil, List.nil_append, List.length_nil, Nat.zero_add] at hw
    rw [hlen] at hw
    have h1 : m + 1 - m = 1 := by omega
    rw [h1] at hw
    refine ⟨by rw [hw], by rw [hw]; simp [hlen], ?_⟩
    intro hhead
    rw [hw]
    cases ks with
    | nil => simp at hhead
    | cons kh kt =>
      injection hhead with hh
      subst hh
      simp only [List.drop_succ_cons, List.drop_zero]
      unfold TTLCache.lookupE
      have hnone : (kt.map (fun k1 => (⟨k1, w, t + ttl⟩ : CEntry V))).find?
          (fun e => e.key == kh) = none := by
        apply List.find?_eq_none.mpr
        intro x hx
        rcases List.mem_map.mp hx with ⟨k1, hk1, rfl⟩
        have : kh ∉ kt := (List.nodup_cons.mp hnd).1
        simp
        exact fun hh2 => this (hh2 ▸ hk1)
      rw [hnone]
      rfl

theorem C3_capacity_eviction_witness :
    (((⟨2, 9, [⟨"x", 1, 5⟩, ⟨"y", 2, 5⟩]⟩ : TTLCache Nat).setOp 0 "z" 3).entries =
      [⟨"y", 2, 5⟩, ⟨"z", 3, 9⟩]) ∧
    ((putList (⟨2, 5, []⟩ : TTLCache Nat) 0 ["a", "b", "c"] 4).entries =
      [⟨"b", 4, 5⟩, ⟨"c", 4, 5⟩]) ∧
    ((putList (⟨2, 5, []⟩ : TTLCache Nat) 0 ["a", "b", "c"] 4).lookupE "a" = none) :=
  ⟨((C3_capacity_eviction (⟨2, 9, [⟨"x", 1, 5⟩, ⟨"y", 2, 5⟩]⟩ : TTLCache Nat) 0 "z" 3
      2 5 0 ["a", "b", "c"] 4 "a").1 (by decide) (by decide) (by decide)).trans (by decide),
   (((C3_capacity_eviction (⟨2, 9, [⟨"x", 1, 5⟩, ⟨"y", 2, 5⟩]⟩ : TTLCache Nat) 0 "z" 3
      2 5 0 ["a", "b", "c"] 4 "a").2 (by decide) (by decide) (by decide) (by decide)).1).trans (by decide),
   ((C3_capacity_eviction (⟨2, 9, [⟨"x", 1, 5⟩, ⟨"y", 2, 5⟩]⟩ : TTLCache Nat) 0 "z" 3
      2 5 0 ["a", "b", "c"] 4 "a").2 (by decide) (by decide) (by decide) (by decide)).2.2 (by decide)⟩

/-! ### Pipeline helper lemmas and concrete fixtures -/

/-- On a cache hit the handler zeroes `processing_time_ms` on the cached
dict (an in-place aliased write) and returns it; no collaborator is
consulted and the `elapsed` measurement is never read. -/
theorem classify_hit_eq (C : Collab) (sf : Bool)
    (c c2 : TTLCache ClassificationResponse) (now : Nat) (ct : Option String)
    (bytes : List Nat) (topk : Int) (elapsed : Nat) (v : ClassificationResponse)
    (hct : contentTypeOk ct = true) (hsz : bytes.length ≤ 10000000)
    (hhit : c.getOp now (image_cache_key bytes topk) = (some v, c2)) :
    classify_image C false sf c now ct bytes topk elapsed =
      (Except.ok { v with processing_time_ms := 0 },
       c2.mutateValue (image_cache_key bytes topk)
         { v with processing_time_ms := 0 }) := by
  have hsz2 : ¬ 10000000 < bytes.length := by omega
  simp [classify_image, hct, hsz2, get_cached_result, hhit]

/-- Every branch of the per-item loop body records the item's own index. -/
theorem processItem_file_index (C : Collab) (topk : Int) (i : Nat) (f : BatchFile) :
    (processItem C topk i f).file_index = i := by
  unfold processItem
  repeat' split
  all_goals try rfl
  all_goals simp only []
  repeat' split
  all_goals rfl

theorem batchLoop_eq_map (C : Collab) (topk : Int) (files : List BatchFile) :
    batchLoop C topk files =
      files.enum.map (fun p => processItem C topk p.1 p.2) := by
  unfold batchLoop
  suffices h : ∀ (l : List (Nat × BatchFile)) (acc : List BatchEntry),
      l.foldl (fun acc p => acc ++ [processItem C topk p.1 p.2]) acc =
        acc ++ l.map (fun p => processItem C topk p.1 p.2) by
    simpa using h files.enum []
  intro l
  induction l with
  | nil => intro acc; simp
  | cons a t ih => intro acc; simp [ih]

/-- Fixture collaborator: decodes any byte list into a 2×2 image and
predicts one fixed class. -/
def collabW : Collab :=
  ⟨fun bs => Except.ok ⟨2, 2, bs⟩, fun i => i,
   fun _ _ => Except.ok [⟨"tabby", 1, 281⟩], [("model_name", "resnet50")]⟩

/-- Fixture cached value, with a non-zero recorded processing time. -/
def respW : ClassificationResponse :=
  ⟨[⟨"tabby", 1, 281⟩], [("model_name", "resnet50")], 42⟩

def keyW : String := image_cache_key [1] 5

/-- Fixture cache: `respW` stored under the fingerprint of `([1], 5)` at
time 0 with TTL 3600. -/
def cacheW : TTLCache ClassificationResponse :=
  (⟨1000, 3600, []⟩ : TTLCache ClassificationResponse).setOp 0 keyW respW

/-- C1 amended: on a non-expired cache hit, `classify` answers the cached
predictions and model metadata with `processing_time_ms = 0`, touching
neither the decoder / normalizer nor the classifier and ignoring the
measured time (the response is one fixed value for every collaborator,
set-fault flag and `elapsed`).  The response type has no `cache_hit`
field, so the hit is observable only through the zeroed time. -/
theorem C1_hit_path (c c2 : TTLCache ClassificationResponse) (now : Nat)
    (ct : Option String) (bytes : List Nat) (topk : Int)
    (v : ClassificationResponse)
    (hct : contentTypeOk ct = true) (hsz : bytes.length ≤ 10000000)
    (hhit : c.getOp now (image_cache_key bytes topk) = (some v, c2)) :
    (∀ (C : Collab) (sf : Bool) (elapsed : Nat),
      classify_image C false sf c now ct bytes topk elapsed =
        (Except.ok { v with processing_time_ms := 0 },
         c2.mutateValue (image_cache_key bytes topk)
           { v with processing_time_ms := 0 })) ∧
    ({ v with processing_time_ms := 0 } : ClassificationResponse).predictions =
      v.predictions ∧
    ({ v with processing_time_ms := 0 } : ClassificationResponse).model_info =
      v.model_info ∧
    ({ v with processing_time_ms := 0 } : ClassificationResponse).processing_time_ms = 0 :=
  ⟨fun C sf elapsed => classify_hit_eq C sf c c2 now ct bytes topk elapsed v hct hsz hhit,
   rfl, rfl, rfl⟩

theorem C1_hit_path_witness :
    contentTypeOk (some "image/jpeg") = true ∧
    (classify_image collabW false true cacheW 10 (some "image/jpeg") [1] 5 77).1 =
      Except.ok ⟨[⟨"tabby", 1, 281⟩], [("model_name", "resnet50")], 0⟩ := by
  refine ⟨by decide, ?_⟩
  have h := (C1_hit_path cacheW ((cacheW.getOp 10 keyW).2) 10 (some "image/jpeg")
    [1] 5 respW (by decide) (by decide) (by decide)).1 collabW true 77
  exact (congrArg Prod.fst h).trans (by decide)

/-- C1 counterexample: the claim asserts `cache_hit = true` is part of
the result, but `ClassificationResponse` carries only `predictions`,
`model_info` and `processing_time_ms` (schemas.py).  Concretely, a run
that hits the cache and a run that misses it (second and third
conjuncts) return byte-identical results (first conjunct), so the result
cannot report a hit flag. -/
theorem C1_counterexample :
    (classify_image collabW false false cacheW 10 (some "image/jpeg") [1] 5 999).1 =
      (classify_image collabW false false (⟨1000, 3600, []⟩ : TTLCache ClassificationResponse)
        10 (some "image/jpeg") [1] 5 0).1 ∧
    ((cacheW.getOp 10 keyW).1).isSome = true ∧
    ((⟨1000, 3600, []⟩ : TTLCache ClassificationResponse).getOp 10 keyW).1 = none := by
  exact ⟨by decide, by decide, by decide⟩

/-- C2 amended: the cache itself never modifies a stored value - a `get`
preserves every stored pair (first conjunct) and a `put` of a different
key leaves whatever remains stored under other keys unmodified (second
conjunct) - but the pipeline's cache-hit path violates the claim as
stated: through Python aliasing it rewrites the stored dict's
`processing_time_ms` to zero in place.  The third conjunct bounds the
damage: a hit run changes no other key, and under the hit key only the
`processing_time_ms` field changes (the expiry and, per the first
conjunct of `C1`-style reasoning, all other fields are preserved). -/
theorem C2_entry_immutability {V : Type} (c : TTLCache V) (now : Nat)
    (k k' : String) (v : V) (p : V × Nat) (C : Collab) (sf : Bool)
    (cp cp2 : TTLCache ClassificationResponse) (ct : Option String)
    (bytes : List Nat) (topk : Int) (elapsed : Nat)
    (w : ClassificationResponse) (q : ClassificationResponse × Nat) (k2 : String) :
    (((c.getOp now k).2).lookupE k' = c.lookupE k') ∧
    (c.WF → k' ≠ k → (c.setOp now k v).lookupE k' = some p →
      c.lookupE k' = some p) ∧
    (contentTypeOk ct = true → bytes.length ≤ 10000000 →
      cp.getOp now (image_cache_key bytes topk) = (some w, cp2) →
      ((k2 ≠ image_cache_key bytes topk →
        ((classify_image C false sf cp now ct bytes topk elapsed).2).lookupE k2 =
          cp.lookupE k2) ∧
       (cp.lookupE (image_cache_key bytes topk) = some q →
        ((classify_image C false sf cp now ct bytes topk elapsed).2).lookupE
            (image_cache_key bytes topk) =
          some ({ w with processing_time_ms := 0 }, q.2)))) := by
  refine ⟨getOp_lookupE c now k k',
    fun hwf hne hl => setOp_lookupE_other c now k k' v hwf hne p hl, ?_⟩
  intro hct hsz hhit
  have hcl := classify_hit_eq C sf cp cp2 now ct bytes topk elapsed w hct hsz hhit
  have h2 : (cp.getOp now (image_cache_key bytes topk)).2 = cp2 := by rw [hhit]
  constructor
  · intro hk2
    rw [hcl]
    have hmut := mutateValue_lookupE_other cp2 (image_cache_key bytes topk) k2
      { w with processing_time_ms := 0 } hk2
    calc (cp2.mutateValue (image_cache_key bytes topk)
          { w with processing_time_ms := 0 }).lookupE k2
        = cp2.lookupE k2 := hmut
      _ = ((cp.getOp now (image_cache_key bytes topk)).2).lookupE k2 := by rw [h2]
      _ = cp.lookupE k2 := getOp_lookupE cp now (image_cache_key bytes topk) k2
  · intro hq
    rw [hcl]
    have hcp2 : cp2.lookupE (image_cache_key bytes topk) = some q := by
      rw [← h2, getOp_lookupE]
      exact hq
    exact mutateValue_lookupE_self cp2 (image_cache_key bytes topk)
      { w with processing_time_ms := 0 } q hcp2

theorem C2_entry_immutability_witness :
    ((⟨5, 10, [⟨"a", 1, 9⟩, ⟨"b", 2, 9⟩]⟩ : TTLCache Nat).lookupE "b" = some (2, 9)) ∧
    (((classify_image collabW false false cacheW 10 (some "image/jpeg") [1] 5 0).2).lookupE
        "other" = cacheW.lookupE "other") :=
  ⟨(C2_entry_immutability (⟨5, 10, [⟨"a", 1, 9⟩, ⟨"b", 2, 9⟩]⟩ : TTLCache Nat) 0
      "a" "b" 7 (2, 9) collabW false cacheW ((cacheW.getOp 10 keyW).2)
      (some "image/jpeg") [1] 5 0 respW (respW, 3600) "other").2.1
      (by unfold TTLCache.WF; decide) (by decide) (by decide),
   ((C2_entry_immutability (⟨5, 10, [⟨"a", 1, 9⟩, ⟨"b", 2, 9⟩]⟩ : TTLCache Nat) 0
      "a" "b" 7 (2, 9) collabW false cacheW ((cacheW.getOp 10 keyW).2)
      (some "image/jpeg") [1] 5 0 respW (respW, 3600) "other").2.2
      (by decide) (by decide) (by decide)).1 (by decide)⟩

/-- C2 counterexample: the stored value under the hit key has
`processing_time_ms = 42` before the request; after a cache-hit `classify`
run - an operation that performs no `put` of that key - the value stored
under the same key has `processing_time_ms = 0`: the hit path mutated the
cached dict in place (endpoints.py line 117 writes through the alias
returned by `cache.get`). -/
theorem C2_counterexample :
    (cacheW.lookupE keyW).map (fun p => p.1.processing_time_ms) = some 42 ∧
    (((classify_image collabW false false cacheW 10 (some "image/jpeg") [1] 5 999).2).lookupE
        keyW).map (fun p => p.1.processing_time_ms) = some 0 := by
  exact ⟨by decide, by decide⟩

/-- C8: whenever `classify` answers an error - wrong content type,
oversized payload, undecodable bytes, zero dimensions, or a classifier
exception - the key-to-(value, expiry) map of the cache is exactly what
it was before the request: the failing request inserts, removes and
modifies nothing.  (The cachetools store may still reorder its recency
list when the probed key exists but is expired; no entry changes.) -/
theorem C8_error_atomicity (C : Collab) (gf sf : Bool)
    (c : TTLCache ClassificationResponse) (now : Nat) (ct : Option String)
    (bytes : List Nat) (topk : Int) (elapsed : Nat) (err : ApiError)
    (h : (classify_image C gf sf c now ct bytes topk elapsed).1 = Except.error err) :
    ∀ k', ((classify_image C gf sf c now ct bytes topk elapsed).2).lookupE k' =
      c.lookupE k' := by
  intro k'
  by_cases hct : contentTypeOk ct = true
  · by_cases hsz : 10000000 < bytes.length
    · simp [classify_image, hct, hsz]
    · obtain ⟨o, c1, hget⟩ : ∃ o c1,
          get_cached_result gf c now (image_cache_key bytes topk) = (o, c1) :=
        ⟨_, _, rfl⟩
      have hc1 : ∀ k2, c1.lookupE k2 = c.lookupE k2 := by
        intro k2
        cases gf with
        | true =>
          have hx : ((none : Option ClassificationResponse), c) = (o, c1) := hget
          injection hx with h1 h2
          rw [← h2]
        | false =>
          have hx : TTLCache.getOp c now (image_cache_key bytes topk) = (o, c1) := hget
          have h2 : (TTLCache.getOp c now (image_cache_key bytes topk)).2 = c1 := by
            rw [hx]
          rw [← h2]
          exact getOp_lookupE c now (image_cache_key bytes topk) k2
      cases o with
      | some v => simp [classify_image, hct, hsz, hget] at h
      | none =>
        cases hdec : C.decode bytes with
        | error e =>
          simp [classify_image, hct, hsz, hget, hdec]
          exact hc1 k'
        | ok img =>
          by_cases hdim : img.width = 0 ∨ img.height = 0
          · simp [classify_image, hct, hsz, hget, hdec, hdim]
            exact hc1 k'
          · cases hpred : C.predict
                (if 1024 < img.width ∨ 1024 < img.height then C.thumbnail img else img)
                topk with
            | error e =>
              simp [classify_image, hct, hsz, hget, hdec, hdim, hpred]
              exact hc1 k'
            | ok preds =>
              simp [classify_image, hct, hsz, hget, hdec, hdim, hpred] at h
  · have hcf : contentTypeOk ct = false := by
      cases hb : contentTypeOk ct with
      | true => exact absurd hb hct
      | false => rfl
    simp [classify_image, hcf]

theorem C8_error_atomicity_witness :
    ((classify_image collabW false false cacheW 10 none [1] 5 0).2).lookupE keyW =
      cacheW.lookupE keyW :=
  C8_error_atomicity collabW false false cacheW 10 none [1] 5 0
    (ApiError.badRequest "File must be an image") (by decide) keyW

/-- C9: for a batch of at most 10 files the handler answers one result
entry per input file, in order; entry `i` is a function of file `i`
alone (third conjunct, so no item's failure affects any other);
`total_files` is the input count and `successful_files` counts exactly
the entries that carry no error.  The batch path never consults the
cache (`classify_batch` takes no cache state at all). -/
theorem C9_batch_isolation (C : Collab) (files : List BatchFile) (topk : Int)
    (elapsed : Nat) (h : files.length ≤ 10) :
    classify_batch C files topk elapsed =
      Except.ok ⟨files.enum.map (fun p => processItem C topk p.1 p.2), files.length,
        ((files.enum.map (fun p => processItem C topk p.1 p.2)).filter
          (fun r => !hasError r)).length, elapsed⟩ ∧
    (files.enum.map (fun p => processItem C topk p.1 p.2)).length = files.length ∧
    (∀ i : Nat, (files.enum.map (fun p => processItem C topk p.1 p.2))[i]? =
      (files[i]?).map (processItem C topk i)) ∧
    (∀ i : Nat, ((files.enum.map (fun p => processItem C topk p.1 p.2))[i]?).map
        (fun r => r.file_index) = (files[i]?).map (fun _ => i)) := by
  have hn : ¬ 10 < files.length := by omega
  have hb := batchLoop_eq_map C topk files
  refine ⟨by simp [classify_batch, hn, hb], by simp [List.enum_length], ?_, ?_⟩
  · intro i
    simp only [List.getElem?_map, List.getElem?_enum, Option.map_map]
    cases files[i]? <;> rfl
  · intro i
    simp only [List.getElem?_map, List.getElem?_enum, Option.map_map]
    cases files[i]? with
    | none => rfl
    | some f =>
      simp only [Option.map_some', Function.comp]
      rw [processItem_file_index]

theorem C9_batch_isolation_witness :
    classify_batch collabW
      [⟨some "image/png", some "a.png", [1]⟩,
       ⟨some "text/plain", some "b.txt", [2]⟩,
       ⟨some "image/png", some "c.png", [3]⟩] 5 6 =
      Except.ok
        ⟨[⟨0, some "a.png", Except.ok ([⟨"tabby", 1, 281⟩], [("model_name", "resnet50")])⟩,
          ⟨1, some "b.txt", Except.error "File must be an image"⟩,
          ⟨2, some "c.png", Except.ok ([⟨"tabby", 1, 281⟩], [("model_name", "resnet50")])⟩],
         3, 2, 6⟩ :=
  ((C9_batch_isolation collabW
      [⟨some "image/png", some "a.png", [1]⟩,
       ⟨some "text/plain", some "b.txt", [2]⟩,
       ⟨some "image/png", some "c.png", [3]⟩] 5 6 (by decide)).1).trans (by decide)

end ImgClassifier
